import Mathlib

/-!
Verification of the real-time conversation subsystem of the Pet-Adoption-System
repository: the in-memory storage (`server/storage.ts`, class `MemStorage`), the
REST handlers and the WebSocket layer (`server/routes.ts`), and the client-side
chat hook and message-thread cache logic
(`client/src/hooks/use-chat-socket.tsx`, `MessageThread`).

JavaScript `Map` objects are modelled as insertion-ordered association lists:
`Map.set` replaces the value at an existing key in place (keeping its position)
and appends a fresh key at the end, `Map.get` returns the first value stored at
the key, and `Map.delete` removes the key.  JavaScript timestamps
(`new Date()`, `Date.now()`) are modelled as natural numbers (milliseconds) and
each storage operation that reads the clock takes the current time explicitly.
-/

namespace PetAdoption

/-- JS `Map.get(k)` on an insertion-ordered association list. -/
def mapGet [DecidableEq K] (m : List (K × α)) (k : K) : Option α :=
  match m with
  | [] => none
  | (k', v) :: rest => if k' = k then some v else mapGet rest k

/-- JS `Map.set(k, v)`: replace the value at an existing key in place,
otherwise append the new entry at the end. -/
def mapSet [DecidableEq K] (m : List (K × α)) (k : K) (v : α) : List (K × α) :=
  match m with
  | [] => [(k, v)]
  | (k', v') :: rest => if k' = k then (k, v) :: rest else (k', v') :: mapSet rest k v

/-- JS `Map.delete(k)`: remove the entry at key `k`. -/
def mapDelete [DecidableEq K] (m : List (K × α)) (k : K) : List (K × α) :=
  m.filter (fun p => p.1 ≠ k)

/-! ## Data model (shared/schema.ts)

Persisted entity types for the conversation subsystem, following the
`messages` and `conversations` tables of `shared/schema.ts` and the insert
schemas `insertMessageSchema` (omits `id`, `createdAt`, `senderId`, `isRead`)
and `insertConversationSchema` (omits `id`, `lastMessageAt`). -/

/-- A row of the `messages` table. -/
structure Message where
  id : Nat
  conversationId : Nat
  senderId : Nat
  content : String
  isRead : Bool
  createdAt : Nat
  deriving DecidableEq, Repr

/-- A row of the `conversations` table. -/
structure Conversation where
  id : Nat
  petId : Nat
  adopterId : Nat
  ownerId : Nat
  title : String
  lastMessageAt : Nat
  deriving DecidableEq, Repr

/-- The body accepted by `insertMessageSchema`. -/
structure InsertMessage where
  conversationId : Nat
  content : String
  deriving DecidableEq, Repr

/-- The body accepted by `insertConversationSchema`. -/
structure InsertConversation where
  petId : Nat
  adopterId : Nat
  ownerId : Nat
  title : String
  deriving DecidableEq, Repr

/-! ## MemStorage (server/storage.ts)

The in-memory store `MemStorage`.  Its `users` and `pets` maps are carried as
parameters of arbitrary payload type `U` / `P`: none of the conversation
subsystem's operations reads a field of a user or pet record (the only use is
the existence check `getPet` in the create-conversation handler), so the store
is generic in these payloads. -/

structure MemStorage (U P : Type) where
  users : List (Nat × U)
  pets : List (Nat × P)
  conversations : List (Nat × Conversation)
  messages : List (Nat × Message)
  currentUserId : Nat
  currentPetId : Nat
  currentConversationId : Nat
  currentMessageId : Nat
  deriving DecidableEq, Repr

namespace MemStorage

variable {U P : Type}

/-- `MemStorage.getPet` restricted to what the conversation handlers use. -/
def getPet (s : MemStorage U P) (id : Nat) : Option P :=
  mapGet s.pets id

/-- `MemStorage.getConversation`. -/
def getConversation (s : MemStorage U P) (id : Nat) : Option Conversation :=
  mapGet s.conversations id

/-- `MemStorage.getConversationByParticipants`: first conversation (in map
value order) matching the `(petId, adopterId, ownerId)` triple. -/
def getConversationByParticipants (s : MemStorage U P)
    (petId adopterId ownerId : Nat) : Option Conversation :=
  (s.conversations.map Prod.snd).find? (fun c =>
    c.petId == petId && c.adopterId == adopterId && c.ownerId == ownerId)

/-- `MemStorage.createConversation`; `now` is the value of `new Date()`. -/
def createConversation (s : MemStorage U P) (now : Nat)
    (ic : InsertConversation) : Conversation × MemStorage U P :=
  let id := s.currentConversationId
  let conversation : Conversation :=
    { id, petId := ic.petId, adopterId := ic.adopterId, ownerId := ic.ownerId,
      title := ic.title, lastMessageAt := now }
  (conversation,
    { s with conversations := mapSet s.conversations id conversation,
             currentConversationId := id + 1 })

/-- `MemStorage.updateConversationLastMessageTime`. -/
def updateConversationLastMessageTime (s : MemStorage U P) (now : Nat)
    (id : Nat) : MemStorage U P :=
  match mapGet s.conversations id with
  | some c =>
      { s with conversations := mapSet s.conversations id { c with lastMessageAt := now } }
  | none => s

/-- `MemStorage.getConversationMessages`: the conversation's messages sorted
by `createdAt` ascending.  The source uses JavaScript `Array.prototype.sort`
with comparator `a.createdAt - b.createdAt`, which is required to be stable;
`List.insertionSort` with `≤` computes exactly that stable sort. -/
def getConversationMessages (s : MemStorage U P) (conversationId : Nat) :
    List Message :=
  List.insertionSort (fun a b => a.createdAt ≤ b.createdAt)
    ((s.messages.map Prod.snd).filter (fun m => m.conversationId == conversationId))

/-- `MemStorage.createMessage`; `now` is the value of `new Date()`. -/
def createMessage (s : MemStorage U P) (now : Nat) (im : InsertMessage)
    (senderId : Nat) : Message × MemStorage U P :=
  let id := s.currentMessageId
  let message : Message :=
    { id, conversationId := im.conversationId, senderId,
      content := im.content, isRead := false, createdAt := now }
  (message,
    { s with messages := mapSet s.messages id message,
             currentMessageId := id + 1 })

/-- One iteration of the loop in `MemStorage.markMessagesAsRead`. -/
def markOneRead (userId : Nat) (s : MemStorage U P) (id : Nat) :
    MemStorage U P :=
  match mapGet s.messages id with
  | some message =>
      if message.senderId ≠ userId then
        { s with messages := mapSet s.messages id { message with isRead := true } }
      else s
  | none => s

/-- `MemStorage.markMessagesAsRead`. -/
def markMessagesAsRead (s : MemStorage U P) (messageIds : List Nat)
    (userId : Nat) : MemStorage U P :=
  messageIds.foldl (markOneRead userId) s

/-- Body of the outer `conversationsToDelete.forEach` loop of
`MemStorage.deletePet`: delete one conversation and then each of its
messages. -/
def deleteConversationAndMessages (st : MemStorage U P) (convId : Nat) :
    MemStorage U P :=
  let st1 := { st with conversations := mapDelete st.conversations convId }
  let messagesToDelete :=
    (st1.messages.filter (fun p => p.2.conversationId == convId)).map (fun p => p.2.id)
  messagesToDelete.foldl
    (fun st2 msgId => { st2 with messages := mapDelete st2.messages msgId }) st1

/-- `MemStorage.deletePet`: deletes the pet, then each conversation that
references it, then each message of each deleted conversation. -/
def deletePet (s : MemStorage U P) (id : Nat) : MemStorage U P :=
  let s1 := { s with pets := mapDelete s.pets id }
  let conversationsToDelete :=
    (s1.conversations.filter (fun p => p.2.petId == id)).map (fun p => p.2.id)
  conversationsToDelete.foldl deleteConversationAndMessages s1

end MemStorage

/-! ## WebSocket layer (server/routes.ts)

Connections are an abstract type `C` with decidable equality (JavaScript
object identity of the `WebSocket` objects).  The `connections` map of
`registerRoutes` is an insertion-ordered association list `List (C × ConnInfo)`
and the transport state `readyState === WebSocket.OPEN` is a predicate
`isOpen : C → Bool` giving each connection's state at call time. -/

/-- The per-connection record stored in the `connections` map:
both fields start out `null`. -/
structure ConnInfo where
  userId : Option Nat
  conversationId : Option Nat
  deriving DecidableEq, Repr

/-- Server-to-client frames (`WebSocketMessage` values sent by routes.ts). -/
inductive WsServerMessage where
  | connected (message : String)
  | new_message (data : Message)
  | message_read (messageIds : List Nat) (userId : Nat)
  | typing (userId : Nat)
  | stop_typing (userId : Nat)
  | pong
  deriving DecidableEq, Repr

/-- Client-to-server frames as discriminated by the `ws.on('message')`
handler.  A frame whose `type` matches none of the four handled strings falls
through every branch with no effect; a frame that fails to parse lands in the
`catch` block, which only logs — both are `unrecognized` here since their
observable behaviour is identical (nothing happens). -/
inductive ClientFrame where
  | auth (userId conversationId : Nat)
  | typing (conversationId userId : Nat)
  | stop_typing (conversationId userId : Nat)
  | ping
  | unrecognized
  deriving DecidableEq, Repr

/-- `broadcastToConversation` of routes.ts: send `message` to every connection
in the map whose `readyState` is `OPEN`, whose stored `conversationId` equals
the target conversation, and which is not `excludeClient`.  The result is the
list of `(recipient, frame)` deliveries performed. -/
def broadcastToConversation {C : Type} [DecidableEq C]
    (connections : List (C × ConnInfo)) (isOpen : C → Bool)
    (conversationId : Nat) (message : WsServerMessage)
    (excludeClient : Option C) : List (C × WsServerMessage) :=
  (connections.filter (fun p =>
      isOpen p.1 && p.2.conversationId == some conversationId
        && some p.1 != excludeClient)).map
    (fun p => (p.1, message))

/-- Result of processing one inbound frame: the updated `connections` map and
the frames written out (direct replies and broadcast deliveries). -/
structure FrameResult (C : Type) where
  connections : List (C × ConnInfo)
  sent : List (C × WsServerMessage)
  deriving DecidableEq, Repr

/-- The `ws.on('message')` handler of routes.ts for one parsed frame arriving
on connection `ws`.  Note that no branch consults the connection's current
entry in the map: `typing`, `stop_typing` and `ping` are processed the same
way whether or not an `auth` frame was ever received on `ws`. -/
def handleFrame {C : Type} [DecidableEq C]
    (connections : List (C × ConnInfo)) (isOpen : C → Bool) (ws : C) :
    ClientFrame → FrameResult C
  | .auth userId conversationId =>
      { connections :=
          mapSet connections ws ⟨some userId, some conversationId⟩,
        sent := [] }
  | .typing conversationId userId =>
      { connections,
        sent := broadcastToConversation connections isOpen conversationId
          (.typing userId) (some ws) }
  | .stop_typing conversationId userId =>
      { connections,
        sent := broadcastToConversation connections isOpen conversationId
          (.stop_typing userId) (some ws) }
  | .ping => { connections, sent := [(ws, .pong)] }
  | .unrecognized => { connections, sent := [] }

/-! ## REST handlers (server/routes.ts)

The two mutation endpoints of the conversation subsystem, for an
authenticated user `currentUserId` and an already-schema-validated body. -/

/-- Outcome of `POST /api/conversations`: `ok` is the 200 response returning
an existing conversation, `created` the 201 response. -/
inductive ConversationResponse where
  | ok (c : Conversation)
  | created (c : Conversation)
  | petNotFound
  | forbidden
  deriving DecidableEq, Repr

/-- The `POST /api/conversations` handler: 404 if the pet does not exist,
403 if the requester is neither the adopter nor the owner of the body,
the existing conversation if one matches the triple, otherwise a fresh one. -/
def postConversationsHandler {U P : Type} (s : MemStorage U P)
    (now currentUserId : Nat) (body : InsertConversation) :
    ConversationResponse × MemStorage U P :=
  match s.getPet body.petId with
  | none => (.petNotFound, s)
  | some _ =>
    if currentUserId ≠ body.adopterId ∧ currentUserId ≠ body.ownerId then
      (.forbidden, s)
    else
      match s.getConversationByParticipants body.petId body.adopterId body.ownerId with
      | some existingConversation => (.ok existingConversation, s)
      | none =>
        let (newConversation, s1) := s.createConversation now body
        (.created newConversation, s1)

/-- Outcome of `POST /api/messages`. -/
inductive MessageResponse where
  | created (m : Message)
  | conversationNotFound
  | forbidden
  | serverError
  deriving DecidableEq, Repr

/-- Which of the two awaited store writes of the `POST /api/messages` handler
rejects.  `MemStorage`'s methods never fail, but the handler is written
against the `IStorage` interface whose promises can reject (the
`DatabaseStorage` implementation issues real database writes); a rejection at
either `await` jumps to the handler's `catch` block, which answers 500. -/
structure StoreFaults where
  createMessageFails : Bool
  updateLastMessageTimeFails : Bool
  deriving DecidableEq, Repr

/-- Result of `POST /api/messages`: HTTP response, store afterwards, and
broadcast deliveries performed. -/
structure PostMessagesResult (U P C : Type) where
  response : MessageResponse
  store : MemStorage U P
  broadcasts : List (C × WsServerMessage)

/-- The `POST /api/messages` handler: look up the conversation (404 if
absent), check participancy (403), `createMessage` with the requester as
sender, `updateConversationLastMessageTime`, then broadcast `new_message`.
A store write that rejects leaves every effect performed before it in place
and answers 500 with no broadcast. -/
def postMessagesHandler {U P C : Type} [DecidableEq C] (s : MemStorage U P)
    (faults : StoreFaults) (now currentUserId : Nat) (body : InsertMessage)
    (connections : List (C × ConnInfo)) (isOpen : C → Bool) :
    PostMessagesResult U P C :=
  match s.getConversation body.conversationId with
  | none => ⟨.conversationNotFound, s, []⟩
  | some conversation =>
    if currentUserId ≠ conversation.adopterId ∧ currentUserId ≠ conversation.ownerId then
      ⟨.forbidden, s, []⟩
    else if faults.createMessageFails then ⟨.serverError, s, []⟩
    else
      let (newMessage, s1) := s.createMessage now body currentUserId
      if faults.updateLastMessageTimeFails then ⟨.serverError, s1, []⟩
      else
        let s2 := s1.updateConversationLastMessageTime now body.conversationId
        ⟨.created newMessage, s2,
          broadcastToConversation connections isOpen body.conversationId
            (.new_message newMessage) none⟩

/-! ## Client side (client/src/hooks/use-chat-socket.tsx and MessageThread)

The hook's `typingUsers` record (`Record<number, TypingState>`) is an
insertion-ordered association list keyed by user id, like the JS objects it
models (integer-keyed property insertion semantics match `mapSet`/`mapDelete`
at the level used here). -/

/-- The hook's `TypingState` value. -/
structure TypingState where
  userId : Nat
  timestamp : Nat
  deriving DecidableEq, Repr

/-- The `typing` case of the hook's `onmessage` switch: ignored when the
event's user is the local user, otherwise the map entry is (re)set to the
current time and `onTyping` fires.  Result: updated map, and whether the
`onTyping` callback was invoked. -/
def handleTypingEvent (localUserId : Nat) (m : List (Nat × TypingState))
    (eventUserId now : Nat) : List (Nat × TypingState) × Bool :=
  if eventUserId ≠ localUserId then
    (mapSet m eventUserId ⟨eventUserId, now⟩, true)
  else (m, false)

/-- The `stop_typing` case of the hook's `onmessage` switch: ignored when the
event's user is the local user, otherwise the map entry is deleted and
`onStopTyping` fires. -/
def handleStopTypingEvent (localUserId : Nat) (m : List (Nat × TypingState))
    (eventUserId : Nat) : List (Nat × TypingState) × Bool :=
  if eventUserId ≠ localUserId then
    (mapDelete m eventUserId, true)
  else (m, false)

/-- The hook's typing-cleanup interval body at time `now`: every entry with
`now - timestamp > 3000` is deleted and `onStopTyping` is invoked with its
key; every other entry is kept as is.  Result: the surviving map and the list
of user ids for which a stop-typing notification was synthesized. -/
def typingSweep (now : Nat) (m : List (Nat × TypingState)) :
    List (Nat × TypingState) × List Nat :=
  (m.filter (fun p => decide (now - p.2.timestamp ≤ 3000)),
   (m.filter (fun p => decide (3000 < now - p.2.timestamp))).map Prod.fst)

/-- `MessageThread.handleNewMessage`'s cache update (`queryClient.setQueryData`
updater): an absent cache becomes the singleton, a message whose id is already
present leaves the cache unchanged, otherwise the message is appended. -/
def handleNewMessage (oldData : Option (List Message)) (message : Message) :
    List Message :=
  match oldData with
  | none => [message]
  | some old =>
      if old.any (fun msg => msg.id == message.id) then old
      else old ++ [message]

/-- Two conversations over the same `(petId, adopterId, ownerId)` triple. -/
def sameTriple (c1 c2 : Conversation) : Prop :=
  c1.petId = c2.petId ∧ c1.adopterId = c2.adopterId ∧ c1.ownerId = c2.ownerId

instance (c1 c2 : Conversation) : Decidable (sameTriple c1 c2) := by
  unfold sameTriple
  infer_instance

/-- The §3 invariant: at most one stored conversation per participant
triple. -/
def uniquePerTriple {U P : Type} (s : MemStorage U P) : Prop :=
  (s.conversations.map Prod.snd).Pairwise (fun c1 c2 => ¬ sameTriple c1 c2)

instance {U P : Type} (s : MemStorage U P) : Decidable (uniquePerTriple s) := by
  unfold uniquePerTriple
  infer_instance

/-- Id-counter freshness for the conversations map, as maintained by
`MemStorage` (ids are handed out by the increasing `currentConversationId`
counter). -/
def conversationIdsFresh {U P : Type} (s : MemStorage U P) : Prop :=
  ∀ k ∈ s.conversations.map Prod.fst, k < s.currentConversationId

instance {U P : Type} (s : MemStorage U P) : Decidable (conversationIdsFresh s) := by
  unfold conversationIdsFresh
  infer_instance

/-- Id-counter freshness for the messages map, as maintained by `MemStorage`
(message ids are handed out by the increasing `currentMessageId` counter). -/
def messageIdsFresh {U P : Type} (s : MemStorage U P) : Prop :=
  ∀ k ∈ s.messages.map Prod.fst, k < s.currentMessageId

instance {U P : Type} (s : MemStorage U P) : Decidable (messageIdsFresh s) := by
  unfold messageIdsFresh
  infer_instance

/-- The `MemStorage` operations of the conversation subsystem that write the
store, as one step type (used to state store-wide invariants such as the
read-flag monotonicity of §3). -/
inductive StoreOp where
  | createConversation (now : Nat) (ic : InsertConversation)
  | updateConversationLastMessageTime (now : Nat) (id : Nat)
  | createMessage (now : Nat) (im : InsertMessage) (senderId : Nat)
  | markMessagesAsRead (messageIds : List Nat) (userId : Nat)
  | deletePet (id : Nat)
  deriving DecidableEq, Repr

/-- Apply one store-writing operation. -/
def applyOp {U P : Type} (op : StoreOp) (s : MemStorage U P) : MemStorage U P :=
  match op with
  | .createConversation now ic => (s.createConversation now ic).2
  | .updateConversationLastMessageTime now id =>
      s.updateConversationLastMessageTime now id
  | .createMessage now im senderId => (s.createMessage now im senderId).2
  | .markMessagesAsRead messageIds userId =>
      s.markMessagesAsRead messageIds userId
  | .deletePet id => s.deletePet id

/-! ## Theorems -/

theorem mapGet_mapSet_self [DecidableEq K] (m : List (K × α)) (k : K) (v : α) :
    mapGet (mapSet m k v) k = some v := by
  induction m with
  | nil => simp [mapGet, mapSet]
  | cons p rest ih =>
    by_cases h : p.1 = k
    · simp [mapSet, mapGet, h]
    · simp [mapSet, mapGet, h, ih]

theorem mapGet_mapSet_ne [DecidableEq K] (m : List (K × α)) (k k' : K) (v : α)
    (h : k' ≠ k) : mapGet (mapSet m k v) k' = mapGet m k' := by
  induction m with
  | nil => simp [mapGet, mapSet, Ne.symm h]
  | cons p rest ih =>
    obtain ⟨a, b⟩ := p
    by_cases hp : a = k
    · subst hp
      simp [mapSet, mapGet, Ne.symm h]
    · simp only [mapSet, hp, if_false, mapGet]
      by_cases hp' : a = k'
      · simp [hp']
      · simp [hp', ih]

theorem mapGet_mem [DecidableEq K] (m : List (K × α)) (k : K) (v : α)
    (h : mapGet m k = some v) : (k, v) ∈ m := by
  induction m with
  | nil => simp [mapGet] at h
  | cons p rest ih =>
    obtain ⟨a, b⟩ := p
    by_cases hp : a = k
    · subst hp
      simp [mapGet] at h
      rw [← h]
      exact List.mem_cons_self _ _
    · simp only [mapGet, hp, if_false] at h
      exact List.mem_cons_of_mem _ (ih h)

theorem mapGet_some_key_mem [DecidableEq K] (m : List (K × α)) (k : K) (v : α)
    (h : mapGet m k = some v) : k ∈ m.map Prod.fst := by
  have := mapGet_mem m k v h
  exact List.mem_map.mpr ⟨(k, v), this, rfl⟩

theorem mapSet_of_not_mem [DecidableEq K] (m : List (K × α)) (k : K) (v : α)
    (h : k ∉ m.map Prod.fst) : mapSet m k v = m ++ [(k, v)] := by
  induction m with
  | nil => simp [mapSet]
  | cons p rest ih =>
    obtain ⟨a, b⟩ := p
    simp only [List.map_cons, List.mem_cons] at h
    push_neg at h
    simp [mapSet, Ne.symm h.1, ih h.2]

theorem mapGet_mapDelete_self [DecidableEq K] (m : List (K × α)) (k : K) :
    mapGet (mapDelete m k) k = none := by
  induction m with
  | nil => simp [mapGet, mapDelete]
  | cons p rest ih =>
    obtain ⟨a, b⟩ := p
    by_cases hp : a = k
    · simpa [mapDelete, List.filter_cons, hp] using ih
    · simpa [mapDelete, List.filter_cons, mapGet, hp] using ih

theorem mapGet_mapDelete_ne [DecidableEq K] (m : List (K × α)) (k k' : K)
    (h : k' ≠ k) : mapGet (mapDelete m k) k' = mapGet m k' := by
  induction m with
  | nil => simp [mapDelete]
  | cons p rest ih =>
    obtain ⟨a, b⟩ := p
    by_cases hp : a = k
    · subst hp
      simp only [mapDelete, List.filter_cons] at ih ⊢
      simpa [mapGet, Ne.symm h] using ih
    · by_cases hp' : a = k'
      · subst hp'
        simp [mapDelete, List.filter_cons, mapGet, hp, Ne.symm h]
      · simp only [mapDelete, List.filter_cons] at ih ⊢
        simpa [mapGet, hp, hp'] using ih

theorem mapSet_key_absent [DecidableEq K] (m : List (K × α)) (k q : K) (v : α)
    (hq : ∀ w, (q, w) ∉ m) (hk : q ≠ k) : ∀ w, (q, w) ∉ mapSet m k v := by
  intro w hw
  induction m with
  | nil =>
    simp [mapSet] at hw
    exact hk hw.1
  | cons p rest ih =>
    by_cases hp : p.1 = k
    · simp [mapSet, hp] at hw
      rcases hw with h | h
      · exact hk h.1
      · exact hq w (List.mem_cons_of_mem _ h)
    · simp [mapSet, hp] at hw
      rcases hw with h | h
      · exact hq w (by simp [← h])
      · exact ih (fun w' hw' => hq w' (List.mem_cons_of_mem _ hw')) h

theorem mapDelete_key_absent [DecidableEq K] (m : List (K × α)) (k q : K)
    (hq : ∀ w, (q, w) ∉ m) : ∀ w, (q, w) ∉ mapDelete m k := by
  intro w hw
  exact hq w (List.mem_of_mem_filter hw)


/-- In an association list with pairwise-distinct keys, a key determines its
value. -/
theorem keys_nodup_value_eq {K α : Type _} (l : List (K × α))
    (h : (l.map Prod.fst).Nodup) {k : K} {v w : α}
    (h1 : (k, v) ∈ l) (h2 : (k, w) ∈ l) : v = w := by
  induction l with
  | nil => cases h1
  | cons p rest ih =>
    simp only [List.map_cons, List.nodup_cons] at h
    rcases List.mem_cons.mp h1 with e1 | m1
    · rcases List.mem_cons.mp h2 with e2 | m2
      · exact congrArg Prod.snd (e1.trans e2.symm)
      · exfalso
        apply h.1
        rw [← e1]
        exact List.mem_map.mpr ⟨(k, w), m2, rfl⟩
    · rcases List.mem_cons.mp h2 with e2 | m2
      · exfalso
        apply h.1
        rw [← e2]
        exact List.mem_map.mpr ⟨(k, v), m1, rfl⟩
      · exact ih h.2 m1 m2

/-- Characterization of the deliveries performed by `broadcastToConversation`:
shared by the broadcast-router and session-protocol theorems. -/
theorem mem_broadcastToConversation {C : Type} [DecidableEq C]
    (connections : List (C × ConnInfo)) (isOpen : C → Bool)
    (conversationId : Nat) (message : WsServerMessage)
    (excludeClient : Option C) :
    ∀ c m',
      (c, m') ∈ broadcastToConversation connections isOpen conversationId
          message excludeClient ↔
        m' = message ∧ ∃ info, (c, info) ∈ connections ∧ isOpen c = true ∧
          info.conversationId = some conversationId ∧ some c ≠ excludeClient := by
    intro c m'
    constructor
    · intro hmem
      rw [broadcastToConversation, List.mem_map] at hmem
      obtain ⟨p, hp, heq⟩ := hmem
      rw [List.mem_filter] at hp
      obtain ⟨hpmem, hpred⟩ := hp
      have hc : p.1 = c := congrArg Prod.fst heq
      have hm : message = m' := congrArg Prod.snd heq
      rw [Bool.and_eq_true, Bool.and_eq_true] at hpred
      obtain ⟨⟨hopen, hconv⟩, hexcl⟩ := hpred
      refine ⟨hm.symm, p.2, ?_, ?_, ?_, ?_⟩
      · rw [← hc]
        exact (Prod.mk.eta (p := p)) ▸ hpmem
      · rw [← hc]
        exact hopen
      · exact eq_of_beq hconv
      · rw [← hc]
        exact bne_iff_ne.mp hexcl
    · rintro ⟨hm, info, hmem, hopen, hconv, hexcl⟩
      rw [broadcastToConversation, List.mem_map]
      refine ⟨(c, info), ?_, by rw [hm]⟩
      rw [List.mem_filter]
      refine ⟨hmem, ?_⟩
      rw [Bool.and_eq_true, Bool.and_eq_true]
      exact ⟨⟨hopen, beq_iff_eq.mpr hconv⟩, bne_iff_ne.mpr hexcl⟩

/-- C1: `broadcastToConversation conversationId event excludeClient` delivers
`event` to exactly those connections that are in the map with an open
transport, a stored binding to `conversationId`, and are not the excluded
connection; consequently a connection whose binding is to a different
conversation receives nothing. -/
theorem broadcast_delivers_exactly {C : Type} [DecidableEq C]
    (connections : List (C × ConnInfo)) (isOpen : C → Bool)
    (conversationId : Nat) (message : WsServerMessage)
    (excludeClient : Option C)
    (hkeys : (connections.map Prod.fst).Nodup) :
    (∀ c m',
      (c, m') ∈ broadcastToConversation connections isOpen conversationId
          message excludeClient ↔
        m' = message ∧ ∃ info, (c, info) ∈ connections ∧ isOpen c = true ∧
          info.conversationId = some conversationId ∧ some c ≠ excludeClient)
    ∧ (∀ c info b, (c, info) ∈ connections → info.conversationId = some b →
        b ≠ conversationId → ∀ m',
        (c, m') ∉ broadcastToConversation connections isOpen conversationId
          message excludeClient) := by
  have hchar := mem_broadcastToConversation connections isOpen conversationId
    message excludeClient
  refine ⟨hchar, ?_⟩
  intro c info b hmem hb hne m' hdel
  obtain ⟨_, info', hmem', _, hconv', _⟩ := (hchar c m').mp hdel
  have : info = info' := keys_nodup_value_eq connections hkeys hmem hmem'
  rw [← this, hb] at hconv'
  exact hne (Option.some.inj hconv')

/-- Witness for C1: in a concrete map, the connection bound to conversation 7
receives the published event and the connection bound only to conversation 8
receives nothing. -/
theorem broadcast_delivers_exactly_witness :
    (((1 : Nat), WsServerMessage.pong) ∈ broadcastToConversation
        [(1, ConnInfo.mk (some 10) (some 7)), (2, ConnInfo.mk (some 11) (some 8))]
        (fun _ => true) 7 WsServerMessage.pong none)
    ∧ (∀ m', ((2 : Nat), m') ∉ broadcastToConversation
        [(1, ConnInfo.mk (some 10) (some 7)), (2, ConnInfo.mk (some 11) (some 8))]
        (fun _ => true) 7 WsServerMessage.pong none) := by
  have h := broadcast_delivers_exactly
    [(1, ConnInfo.mk (some 10) (some 7)), (2, ConnInfo.mk (some 11) (some 8))]
    (fun _ => true) 7 WsServerMessage.pong none (by decide)
  refine ⟨(h.1 1 WsServerMessage.pong).mpr
    ⟨rfl, ConnInfo.mk (some 10) (some 7), by decide, rfl, rfl, by decide⟩, ?_⟩
  intro m'
  exact h.2 2 (ConnInfo.mk (some 11) (some 8)) 8 (by decide) rfl (by decide) m'

/-- Counterexample to C5 as stated: the `ws.on('message')` handler never
consults the connection's auth state.  On a map holding only the fresh,
never-authenticated connection `0` (entry `⟨none, none⟩` as installed on
connect), a `ping` frame is answered with `pong` rather than ignored; and
with a second connection `1` bound to conversation 5, a `typing` frame from
the unauthenticated connection `0` is broadcast to connection `1`. -/
theorem unauthenticated_frames_not_ignored :
    (handleFrame [((0 : Nat), ConnInfo.mk none none)] (fun _ => true) 0
        ClientFrame.ping).sent = [(0, WsServerMessage.pong)]
    ∧ (handleFrame
        [((0 : Nat), ConnInfo.mk none none), (1, ConnInfo.mk (some 9) (some 5))]
        (fun _ => true) 0 (ClientFrame.typing 5 7)).sent
        = [(1, WsServerMessage.typing 7)] := by
  exact ⟨rfl, rfl⟩

/-- C5 amended: while a connection is Unauthenticated (its map entry is the
initial `⟨none, none⟩`), a received non-`auth` frame never installs or changes
any binding in the connections map, and a frame of unrecognized type produces
no broadcast and no reply; however, `typing`/`stop_typing` frames are
broadcast to the conversation named in the frame and `ping` is answered with
`pong` regardless of authentication state, and only an `auth` frame installs
the connection's `(userId, conversationId)` binding. -/
theorem unauthenticated_frame_handling {C : Type} [DecidableEq C]
    (connections : List (C × ConnInfo)) (isOpen : C → Bool) (ws : C)
    (hws : mapGet connections ws = some (ConnInfo.mk none none)) :
    (∀ frame, (∀ u cid, frame ≠ ClientFrame.auth u cid) →
        (handleFrame connections isOpen ws frame).connections = connections)
    ∧ (handleFrame connections isOpen ws ClientFrame.unrecognized).sent = []
    ∧ (handleFrame connections isOpen ws ClientFrame.ping).sent
        = [(ws, WsServerMessage.pong)]
    ∧ (∀ conversationId userId c info, (c, info) ∈ connections →
        isOpen c = true → info.conversationId = some conversationId → c ≠ ws →
        (c, WsServerMessage.typing userId) ∈
          (handleFrame connections isOpen ws
            (ClientFrame.typing conversationId userId)).sent)
    ∧ (∀ u cid,
        mapGet (handleFrame connections isOpen ws
          (ClientFrame.auth u cid)).connections ws
          = some (ConnInfo.mk (some u) (some cid))) := by
  refine ⟨?_, rfl, rfl, ?_, ?_⟩
  · intro frame hne
    cases frame with
    | auth u cid => exact absurd rfl (hne u cid)
    | typing cid u => rfl
    | stop_typing cid u => rfl
    | ping => rfl
    | unrecognized => rfl
  · intro conversationId userId c info hmem hopen hconv hcne
    show (c, WsServerMessage.typing userId) ∈
      broadcastToConversation connections isOpen conversationId
        (WsServerMessage.typing userId) (some ws)
    exact (mem_broadcastToConversation connections isOpen conversationId
      (WsServerMessage.typing userId) (some ws) c
      (WsServerMessage.typing userId)).mpr
      ⟨rfl, info, hmem, hopen, hconv, by simpa using hcne⟩
  · intro u cid
    exact mapGet_mapSet_self connections ws ⟨some u, some cid⟩

/-- Witness for the amended C5 at a concrete map: connection 0 is
unauthenticated, its ping is answered, its typing frame reaches connection 1
bound to conversation 5, and its auth frame installs a binding. -/
theorem unauthenticated_frame_handling_witness :
    (handleFrame
        [((0 : Nat), ConnInfo.mk none none), (1, ConnInfo.mk (some 9) (some 5))]
        (fun _ => true) 0 ClientFrame.ping).sent = [(0, WsServerMessage.pong)]
    ∧ ((1 : Nat), WsServerMessage.typing 7) ∈
        (handleFrame
          [((0 : Nat), ConnInfo.mk none none), (1, ConnInfo.mk (some 9) (some 5))]
          (fun _ => true) 0 (ClientFrame.typing 5 7)).sent := by
  have h := unauthenticated_frame_handling
    [((0 : Nat), ConnInfo.mk none none), (1, ConnInfo.mk (some 9) (some 5))]
    (fun _ => true) 0 (by decide)
  exact ⟨h.2.2.1, h.2.2.2.1 5 7 1 (ConnInfo.mk (some 9) (some 5))
    (by decide) rfl rfl (by decide)⟩

theorem find?_append_of_none {α : Type _} (p : α → Bool) (l1 l2 : List α)
    (h : l1.find? p = none) : (l1 ++ l2).find? p = l2.find? p := by
  induction l1 with
  | nil => rfl
  | cons a rest ih =>
    cases hpa : p a with
    | true =>
      rw [List.find?_cons_of_pos _ hpa] at h
      cases h
    | false =>
      have hpa' : ¬ p a = true := by simp [hpa]
      rw [List.find?_cons_of_neg _ hpa'] at h
      rw [List.cons_append, List.find?_cons_of_neg _ hpa']
      exact ih h

/-- C2: conversation creation via `POST /api/conversations` is idempotent on
the participant triple.  If a conversation with the body's triple already
exists, the handler returns it and leaves the store unchanged; two successive
requests with the same body return the same conversation and the second never
creates; and the at-most-one-conversation-per-triple invariant is preserved. -/
theorem conversation_creation_idempotent {U P : Type} (s : MemStorage U P)
    (now now2 currentUserId : Nat) (body : InsertConversation) (pet : P)
    (hpet : s.getPet body.petId = some pet)
    (hpart : currentUserId = body.adopterId ∨ currentUserId = body.ownerId)
    (hfresh : conversationIdsFresh s) :
    (∀ c, s.getConversationByParticipants body.petId body.adopterId body.ownerId
          = some c →
        postConversationsHandler s now currentUserId body
          = (ConversationResponse.ok c, s))
    ∧ (∃ c1,
        ((postConversationsHandler s now currentUserId body).1
            = ConversationResponse.ok c1
          ∨ (postConversationsHandler s now currentUserId body).1
            = ConversationResponse.created c1)
        ∧ postConversationsHandler
            (postConversationsHandler s now currentUserId body).2
            now2 currentUserId body
          = (ConversationResponse.ok c1,
             (postConversationsHandler s now currentUserId body).2))
    ∧ (uniquePerTriple s →
        uniquePerTriple (postConversationsHandler s now currentUserId body).2) := by
  have hguard : ¬ (currentUserId ≠ body.adopterId ∧ currentUserId ≠ body.ownerId) := by
    rcases hpart with h | h
    · exact fun hc => hc.1 h
    · exact fun hc => hc.2 h
  have hexist : ∀ (t : Nat) c,
      s.getConversationByParticipants body.petId body.adopterId body.ownerId
        = some c →
      postConversationsHandler s t currentUserId body
        = (ConversationResponse.ok c, s) := by
    intro t c hc
    simp [postConversationsHandler, hpet, hguard, hc]
  -- Facts about the freshly created conversation in the create branch.
  have hc1fields : (s.createConversation now body).1
      = { id := s.currentConversationId, petId := body.petId,
          adopterId := body.adopterId, ownerId := body.ownerId,
          title := body.title, lastMessageAt := now } := rfl
  have hs1conv : (s.createConversation now body).2.conversations
      = mapSet s.conversations s.currentConversationId
          (s.createConversation now body).1 := rfl
  have hkeysne : s.currentConversationId ∉ s.conversations.map Prod.fst :=
    fun hmem => Nat.lt_irrefl _ (hfresh _ hmem)
  have hvals : (s.createConversation now body).2.conversations.map Prod.snd
      = s.conversations.map Prod.snd ++ [(s.createConversation now body).1] := by
    rw [hs1conv, mapSet_of_not_mem _ _ _ hkeysne, List.map_append]
    rfl
  have hpred : ∀ c : Conversation, c.petId = body.petId →
      c.adopterId = body.adopterId → c.ownerId = body.ownerId →
      (c.petId == body.petId && c.adopterId == body.adopterId
        && c.ownerId == body.ownerId) = true := by
    intro c h1 h2 h3
    simp [h1, h2, h3]
  refine ⟨hexist now, ?_, ?_⟩
  · cases hfind : s.getConversationByParticipants body.petId body.adopterId
        body.ownerId with
    | some c =>
      refine ⟨c, ?_, ?_⟩
      · rw [hexist now c hfind]
        exact Or.inl rfl
      · rw [hexist now c hfind]
        exact hexist now2 c hfind
    | none =>
      have hrun : postConversationsHandler s now currentUserId body
          = (ConversationResponse.created (s.createConversation now body).1,
             (s.createConversation now body).2) := by
        simp [postConversationsHandler, hpet, hguard, hfind]
      have hfind1 : (s.createConversation now body).2.getConversationByParticipants
          body.petId body.adopterId body.ownerId
          = some (s.createConversation now body).1 := by
        rw [MemStorage.getConversationByParticipants, hvals,
          find?_append_of_none _ _ _ hfind]
        rw [List.find?_cons_of_pos]
        rw [hc1fields]
        exact hpred _ rfl rfl rfl
      have hpet1 : (s.createConversation now body).2.getPet body.petId
          = some pet := hpet
      refine ⟨(s.createConversation now body).1, ?_, ?_⟩
      · rw [hrun]
        exact Or.inr rfl
      · rw [hrun]
        simp [postConversationsHandler, hpet1, hguard, hfind1]
  · intro huniq
    cases hfind : s.getConversationByParticipants body.petId body.adopterId
        body.ownerId with
    | some c =>
      rw [hexist now c hfind]
      exact huniq
    | none =>
      have hrun : postConversationsHandler s now currentUserId body
          = (ConversationResponse.created (s.createConversation now body).1,
             (s.createConversation now body).2) := by
        simp [postConversationsHandler, hpet, hguard, hfind]
      rw [hrun]
      show uniquePerTriple (s.createConversation now body).2
      rw [uniquePerTriple, hvals, List.pairwise_append]
      refine ⟨huniq, List.pairwise_singleton _ _, ?_⟩
      intro a ha b hb hsame
      have hb' : b = (s.createConversation now body).1 := by simpa using hb
      have hnone := List.find?_eq_none.mp hfind a ha
      apply hnone
      rw [hb', hc1fields] at hsame
      obtain ⟨h1, h2, h3⟩ := hsame
      exact hpred a h1 h2 h3

/-- Witness for C2 at a concrete store holding pet 1 and no conversation:
user 2 creating a conversation for (pet 1, adopter 2, owner 3) twice gets the
same conversation both times, the second time without a creation. -/
theorem conversation_creation_idempotent_witness :
    ∃ c1,
      (((postConversationsHandler
            { users := [], pets := [((1 : Nat), ())], conversations := [],
              messages := [], currentUserId := 4, currentPetId := 2,
              currentConversationId := 1,
              currentMessageId := 1 } 100 2 ⟨1, 2, 3, "About Rex"⟩ :
          ConversationResponse × MemStorage Unit Unit).1
          = ConversationResponse.ok c1)
        ∨ ((postConversationsHandler
            { users := [], pets := [((1 : Nat), ())], conversations := [],
              messages := [], currentUserId := 4, currentPetId := 2,
              currentConversationId := 1,
              currentMessageId := 1 } 100 2 ⟨1, 2, 3, "About Rex"⟩ :
          ConversationResponse × MemStorage Unit Unit).1
          = ConversationResponse.created c1))
      ∧ postConversationsHandler
          (postConversationsHandler
            { users := [], pets := [((1 : Nat), ())], conversations := [],
              messages := [], currentUserId := 4, currentPetId := 2,
              currentConversationId := 1,
              currentMessageId := 1 } 100 2 ⟨1, 2, 3, "About Rex"⟩ :
            ConversationResponse × MemStorage Unit Unit).2 200 2
            ⟨1, 2, 3, "About Rex"⟩
        = (ConversationResponse.ok c1,
           (postConversationsHandler
            { users := [], pets := [((1 : Nat), ())], conversations := [],
              messages := [], currentUserId := 4, currentPetId := 2,
              currentConversationId := 1,
              currentMessageId := 1 } 100 2 ⟨1, 2, 3, "About Rex"⟩ :
            ConversationResponse × MemStorage Unit Unit).2) :=
  (conversation_creation_idempotent
    { users := [], pets := [((1 : Nat), ())], conversations := [],
      messages := [], currentUserId := 4, currentPetId := 2,
      currentConversationId := 1, currentMessageId := 1 }
    100 200 2 ⟨1, 2, 3, "About Rex"⟩ () rfl (Or.inl rfl) (by decide)).2.1

/-- Case analysis lemmas for one iteration of the `markMessagesAsRead`
loop. -/
theorem markOneRead_of_none {U P : Type} (userId : Nat) (s : MemStorage U P)
    (id : Nat) (h : mapGet s.messages id = none) :
    MemStorage.markOneRead userId s id = s := by
  unfold MemStorage.markOneRead
  rw [h]

theorem markOneRead_of_self {U P : Type} (userId : Nat) (s : MemStorage U P)
    (id : Nat) (m : Message) (h : mapGet s.messages id = some m)
    (hsu : ¬ m.senderId ≠ userId) :
    MemStorage.markOneRead userId s id = s := by
  unfold MemStorage.markOneRead
  rw [h]
  exact if_neg hsu

theorem markOneRead_of_other {U P : Type} (userId : Nat) (s : MemStorage U P)
    (id : Nat) (m : Message) (h : mapGet s.messages id = some m)
    (hsu : m.senderId ≠ userId) :
    MemStorage.markOneRead userId s id
      = { s with messages := mapSet s.messages id { m with isRead := true } } := by
  unfold MemStorage.markOneRead
  rw [h]
  exact if_pos hsu

/-- Closed form of `markMessagesAsRead`: the message stored at `mid` gains
`isRead := true` exactly when `mid` is among the requested ids and its sender
is not the reader; every other message (and every absent id) is untouched. -/
theorem markMessagesAsRead_get {U P : Type} (userId : Nat)
    (messageIds : List Nat) :
    ∀ (s : MemStorage U P) (mid : Nat),
      mapGet (s.markMessagesAsRead messageIds userId).messages mid
        = (mapGet s.messages mid).map (fun m =>
            if mid ∈ messageIds ∧ m.senderId ≠ userId then
              { m with isRead := true } else m) := by
  induction messageIds with
  | nil =>
    intro s mid
    cases h : mapGet s.messages mid <;>
      simp [MemStorage.markMessagesAsRead, h]
  | cons id rest ih =>
    intro s mid
    have hstep : s.markMessagesAsRead (id :: rest) userId
        = (MemStorage.markOneRead userId s id).markMessagesAsRead rest userId := rfl
    rw [hstep, ih]
    by_cases hne : mid = id
    · subst hne
      cases h : mapGet s.messages mid with
      | none =>
        rw [markOneRead_of_none userId s mid h, h]
        rfl
      | some m =>
        by_cases hsu : m.senderId ≠ userId
        · rw [markOneRead_of_other userId s mid m h hsu,
            show ({ s with
                messages := mapSet s.messages mid { m with isRead := true } } :
              MemStorage U P).messages
              = mapSet s.messages mid { m with isRead := true } from rfl,
            mapGet_mapSet_self]
          have e1 : (if mid ∈ rest
                ∧ (Message.mk m.id m.conversationId m.senderId m.content true
                    m.createdAt).senderId ≠ userId then
              { Message.mk m.id m.conversationId m.senderId m.content true
                  m.createdAt with isRead := true }
            else Message.mk m.id m.conversationId m.senderId m.content true
                  m.createdAt)
              = Message.mk m.id m.conversationId m.senderId m.content true
                  m.createdAt := by
            split <;> rfl
          have e2 : (if mid ∈ mid :: rest ∧ m.senderId ≠ userId then
                { m with isRead := true } else m)
              = { m with isRead := true } :=
            if_pos ⟨List.mem_cons_self _ _, hsu⟩
          exact congrArg some (e1.trans e2.symm)
        · rw [markOneRead_of_self userId s mid m h hsu, h]
          have hmem : ¬ (mid ∈ rest ∧ m.senderId ≠ userId) := fun hc => hsu hc.2
          have hmem2 : ¬ (mid ∈ mid :: rest ∧ m.senderId ≠ userId) :=
            fun hc => hsu hc.2
          exact congrArg some ((if_neg hmem).trans (if_neg hmem2).symm)
    · have hmo : mapGet (MemStorage.markOneRead userId s id).messages mid
          = mapGet s.messages mid := by
        cases h : mapGet s.messages id with
        | none => rw [markOneRead_of_none userId s id h]
        | some m =>
          by_cases hsu : m.senderId ≠ userId
          · rw [markOneRead_of_other userId s id m h hsu]
            exact mapGet_mapSet_ne _ _ _ _ hne
          · rw [markOneRead_of_self userId s id m h hsu]
      rw [hmo]
      cases hmm : mapGet s.messages mid with
      | none => rfl
      | some m =>
        have hiff : (mid ∈ rest ∧ m.senderId ≠ userId)
            ↔ (mid ∈ id :: rest ∧ m.senderId ≠ userId) := by
          constructor
          · exact fun hc => ⟨List.mem_cons_of_mem _ hc.1, hc.2⟩
          · rintro ⟨hmem, hs⟩
            rcases List.mem_cons.mp hmem with he | hm
            · exact absurd he hne
            · exact ⟨hm, hs⟩
        exact congrArg some (if_congr hiff rfl rfl)

/-- `markMessagesAsRead` touches only the `messages` map: users, pets and
conversations are untouched. -/
theorem markMessagesAsRead_frame {U P : Type} (userId : Nat)
    (messageIds : List Nat) :
    ∀ s : MemStorage U P,
      (s.markMessagesAsRead messageIds userId).users = s.users
      ∧ (s.markMessagesAsRead messageIds userId).pets = s.pets
      ∧ (s.markMessagesAsRead messageIds userId).conversations = s.conversations := by
  induction messageIds with
  | nil => exact fun s => ⟨rfl, rfl, rfl⟩
  | cons id rest ih =>
    intro s
    have hstep : s.markMessagesAsRead (id :: rest) userId
        = (MemStorage.markOneRead userId s id).markMessagesAsRead rest userId := rfl
    rw [hstep]
    have hmo : (MemStorage.markOneRead userId s id).users = s.users
        ∧ (MemStorage.markOneRead userId s id).pets = s.pets
        ∧ (MemStorage.markOneRead userId s id).conversations = s.conversations := by
      cases h : mapGet s.messages id with
      | none => rw [markOneRead_of_none userId s id h]; exact ⟨rfl, rfl, rfl⟩
      | some m =>
        by_cases hsu : m.senderId ≠ userId
        · rw [markOneRead_of_other userId s id m h hsu]
          exact ⟨rfl, rfl, rfl⟩
        · rw [markOneRead_of_self userId s id m h hsu]
          exact ⟨rfl, rfl, rfl⟩
    obtain ⟨h1, h2, h3⟩ := ih (MemStorage.markOneRead userId s id)
    exact ⟨h1.trans hmo.1, h2.trans hmo.2.1, h3.trans hmo.2.2⟩

/-- A fold of message deletions only ever removes messages: anything present
afterwards was present before, unchanged. -/
theorem foldl_deleteMessages_get {U P : Type} (ds : List Nat) :
    ∀ (st : MemStorage U P) (k : Nat) (v : Message),
      mapGet ((ds.foldl (fun st2 msgId =>
          { st2 with messages := mapDelete st2.messages msgId }) st)).messages k
        = some v →
      mapGet st.messages k = some v := by
  induction ds with
  | nil => exact fun st k v h => h
  | cons d rest ih =>
    intro st k v h
    have h' := ih { st with messages := mapDelete st.messages d } k v h
    by_cases hkd : k = d
    · subst hkd
      rw [show ({ st with messages := mapDelete st.messages k } :
            MemStorage U P).messages = mapDelete st.messages k from rfl,
          mapGet_mapDelete_self] at h'
      cases h'
    · rwa [show ({ st with messages := mapDelete st.messages d } :
            MemStorage U P).messages = mapDelete st.messages d from rfl,
          mapGet_mapDelete_ne _ _ _ hkd] at h'

/-- `deleteConversationAndMessages` only removes messages. -/
theorem deleteConversationAndMessages_get {U P : Type}
    (st : MemStorage U P) (convId : Nat) (k : Nat) (v : Message)
    (h : mapGet (MemStorage.deleteConversationAndMessages st convId).messages k
      = some v) :
    mapGet st.messages k = some v := by
  unfold MemStorage.deleteConversationAndMessages at h
  exact foldl_deleteMessages_get _
    { st with conversations := mapDelete st.conversations convId } k v h

/-- A fold of conversation cascade deletions only removes messages. -/
theorem foldl_deleteConv_get {U P : Type} (cs : List Nat) :
    ∀ (st : MemStorage U P) (k : Nat) (v : Message),
      mapGet ((cs.foldl MemStorage.deleteConversationAndMessages st).messages) k
        = some v →
      mapGet st.messages k = some v := by
  induction cs with
  | nil => exact fun st k v h => h
  | cons c rest ih =>
    intro st k v h
    exact deleteConversationAndMessages_get st c k v
      (ih (MemStorage.deleteConversationAndMessages st c) k v h)

/-- `deletePet` only removes messages: a message present afterwards was
present before, unchanged. -/
theorem deletePet_get {U P : Type} (s : MemStorage U P) (pid : Nat)
    (k : Nat) (v : Message)
    (h : mapGet (s.deletePet pid).messages k = some v) :
    mapGet s.messages k = some v := by
  unfold MemStorage.deletePet at h
  exact foldl_deleteConv_get _ { s with pets := mapDelete s.pets pid } k v h

/-- `updateConversationLastMessageTime` leaves the messages map alone. -/
theorem updateConversationLastMessageTime_messages {U P : Type}
    (s : MemStorage U P) (now id : Nat) :
    (s.updateConversationLastMessageTime now id).messages = s.messages := by
  unfold MemStorage.updateConversationLastMessageTime
  cases mapGet s.conversations id <;> rfl

/-- C3: `markMessagesAsRead(messageIds, readerId)` leaves every listed
message whose sender is the reader untouched (so a self-sent unread message
stays unread), sets `isRead` only on listed messages from the other
participant, and across every store-writing operation `isRead` never falls
back from true to false — a false-to-true flip happens only through a
`markMessagesAsRead` whose reader is not the message's sender. -/
theorem markRead_read_flag_invariant {U P : Type} (s : MemStorage U P)
    (messageIds : List Nat) (readerId : Nat) :
    (∀ mid m, mid ∈ messageIds → mapGet s.messages mid = some m →
        m.senderId = readerId →
        mapGet (s.markMessagesAsRead messageIds readerId).messages mid = some m)
    ∧ (∀ mid m m', mapGet s.messages mid = some m →
        mapGet (s.markMessagesAsRead messageIds readerId).messages mid = some m' →
        m.isRead = false → m'.isRead = true →
        mid ∈ messageIds ∧ m.senderId ≠ readerId)
    ∧ (∀ (op : StoreOp) (mid : Nat) (m m' : Message), messageIdsFresh s →
        mapGet s.messages mid = some m → m.isRead = true →
        mapGet (applyOp op s).messages mid = some m' → m'.isRead = true)
    ∧ (∀ (op : StoreOp) (mid : Nat) (m m' : Message), messageIdsFresh s →
        mapGet s.messages mid = some m →
        mapGet (applyOp op s).messages mid = some m' →
        m.isRead = false → m'.isRead = true →
        ∃ mids u, op = StoreOp.markMessagesAsRead mids u ∧ mid ∈ mids
          ∧ u ≠ m.senderId) := by
  have hgeneral : ∀ (mids : List Nat) (u : Nat) (mid : Nat) (m m' : Message),
      mapGet s.messages mid = some m →
      mapGet (s.markMessagesAsRead mids u).messages mid = some m' →
      m' = (if mid ∈ mids ∧ m.senderId ≠ u then { m with isRead := true } else m) := by
    intro mids u mid m m' h h'
    rw [markMessagesAsRead_get u mids s mid, h] at h'
    exact (Option.some.inj h').symm
  have hop_unchanged : ∀ (op : StoreOp) (mid : Nat) (m m' : Message),
      messageIdsFresh s →
      mapGet s.messages mid = some m →
      mapGet (applyOp op s).messages mid = some m' →
      (m' = m ∨ ∃ mids u, op = StoreOp.markMessagesAsRead mids u
        ∧ m' = (if mid ∈ mids ∧ m.senderId ≠ u then { m with isRead := true }
                else m)) := by
    intro op mid m m' hfresh h h'
    cases op with
    | createConversation now ic =>
      left
      rw [show (applyOp (StoreOp.createConversation now ic) s).messages
          = s.messages from rfl, h] at h'
      exact (Option.some.inj h').symm
    | updateConversationLastMessageTime now id =>
      left
      rw [show applyOp (StoreOp.updateConversationLastMessageTime now id) s
          = s.updateConversationLastMessageTime now id from rfl,
        updateConversationLastMessageTime_messages, h] at h'
      exact (Option.some.inj h').symm
    | createMessage now im senderId =>
      left
      have hmid : mid ≠ s.currentMessageId := by
        intro he
        have := hfresh mid (mapGet_some_key_mem _ _ _ h)
        rw [he] at this
        exact Nat.lt_irrefl _ this
      rw [show (applyOp (StoreOp.createMessage now im senderId) s).messages
          = mapSet s.messages s.currentMessageId
              { id := s.currentMessageId, conversationId := im.conversationId,
                senderId := senderId, content := im.content, isRead := false,
                createdAt := now } from rfl,
        mapGet_mapSet_ne _ _ _ _ hmid, h] at h'
      exact (Option.some.inj h').symm
    | markMessagesAsRead mids u =>
      right
      exact ⟨mids, u, rfl, hgeneral mids u mid m m' h h'⟩
    | deletePet pid =>
      left
      have := deletePet_get s pid mid m' h'
      rw [h] at this
      exact (Option.some.inj this).symm
  refine ⟨?_, ?_, ?_, ?_⟩
  · intro mid m hmem h hsr
    rw [markMessagesAsRead_get readerId messageIds s mid, h]
    have hcond : ¬ (mid ∈ messageIds ∧ m.senderId ≠ readerId) :=
      fun hc => hc.2 hsr
    rw [Option.map_some']
    exact congrArg some (if_neg hcond)
  · intro mid m m' h h' hfalse htrue
    have := hgeneral messageIds readerId mid m m' h h'
    by_cases hcond : mid ∈ messageIds ∧ m.senderId ≠ readerId
    · exact hcond
    · rw [if_neg hcond] at this
      rw [this] at htrue
      rw [hfalse] at htrue
      cases htrue
  · intro op mid m m' hfresh h htrue h'
    rcases hop_unchanged op mid m m' hfresh h h' with he | ⟨mids, u, _, he⟩
    · rw [he]
      exact htrue
    · rw [he]
      split
      · rfl
      · exact htrue
  · intro op mid m m' hfresh h h' hfalse htrue
    rcases hop_unchanged op mid m m' hfresh h h' with he | ⟨mids, u, hop, he⟩
    · rw [he, hfalse] at htrue
      cases htrue
    · by_cases hcond : mid ∈ mids ∧ m.senderId ≠ u
      · exact ⟨mids, u, hop, hcond.1, Ne.symm hcond.2⟩
      · rw [he, if_neg hcond, hfalse] at htrue
        cases htrue

/-- Witness for C3: in a store holding message 1 (sender 2, unread), the
sender marking their own message read leaves it unread and unchanged. -/
theorem markRead_read_flag_invariant_witness :
    mapGet (MemStorage.markMessagesAsRead
        { users := [], pets := [], conversations := [],
          messages := [((1 : Nat), Message.mk 1 5 2 "hi" false 50)],
          currentUserId := 3, currentPetId := 1, currentConversationId := 2,
          currentMessageId := 2 } [1] 2 : MemStorage Unit Unit).messages 1
      = some (Message.mk 1 5 2 "hi" false 50) :=
  (markRead_read_flag_invariant
    { users := [], pets := [], conversations := [],
      messages := [((1 : Nat), Message.mk 1 5 2 "hi" false 50)],
      currentUserId := 3, currentPetId := 1, currentConversationId := 2,
      currentMessageId := 2 } [1] 2).1 1 (Message.mk 1 5 2 "hi" false 50)
    (by decide) rfl rfl

/-- C10: `markMessagesAsRead(messageIds, readerId)` modifies at most the
`isRead` field of the listed messages: every stored message keeps its id,
conversation, sender, content and creation time; messages not listed are
entirely unchanged; and the users, pets and conversations maps are
unchanged. -/
theorem markRead_frame_effect {U P : Type} (s : MemStorage U P)
    (messageIds : List Nat) (readerId : Nat) :
    (∀ mid m, mapGet s.messages mid = some m →
      ∃ m', mapGet (s.markMessagesAsRead messageIds readerId).messages mid
          = some m'
        ∧ m'.id = m.id ∧ m'.conversationId = m.conversationId
        ∧ m'.senderId = m.senderId ∧ m'.content = m.content
        ∧ m'.createdAt = m.createdAt)
    ∧ (∀ mid, mid ∉ messageIds →
        mapGet (s.markMessagesAsRead messageIds readerId).messages mid
          = mapGet s.messages mid)
    ∧ (s.markMessagesAsRead messageIds readerId).users = s.users
    ∧ (s.markMessagesAsRead messageIds readerId).pets = s.pets
    ∧ (s.markMessagesAsRead messageIds readerId).conversations
        = s.conversations := by
  obtain ⟨hu, hp, hc⟩ := markMessagesAsRead_frame readerId messageIds s
  refine ⟨?_, ?_, hu, hp, hc⟩
  · intro mid m h
    rw [markMessagesAsRead_get readerId messageIds s mid, h, Option.map_some']
    refine ⟨_, rfl, ?_⟩
    split <;> exact ⟨rfl, rfl, rfl, rfl, rfl⟩
  · intro mid hmem
    rw [markMessagesAsRead_get readerId messageIds s mid]
    cases h : mapGet s.messages mid with
    | none => rfl
    | some m =>
      rw [Option.map_some']
      exact congrArg some (if_neg (fun hcond => hmem hcond.1))

/-- Witness for C10: marking message 1 read by user 3 (not its sender) flips
only `isRead`; message 2, not listed, and the other collections are
unchanged. -/
theorem markRead_frame_effect_witness :
    mapGet (MemStorage.markMessagesAsRead
        { users := [((7 : Nat), ())], pets := [((4 : Nat), ())],
          conversations := [], messages :=
            [((1 : Nat), Message.mk 1 5 2 "hi" false 50),
             (2, Message.mk 2 5 3 "yo" false 60)],
          currentUserId := 8, currentPetId := 5, currentConversationId := 1,
          currentMessageId := 3 } [1] 3 : MemStorage Unit Unit).messages 2
      = some (Message.mk 2 5 3 "yo" false 60) :=
  (markRead_frame_effect
    { users := [((7 : Nat), ())], pets := [((4 : Nat), ())],
      conversations := [], messages :=
        [((1 : Nat), Message.mk 1 5 2 "hi" false 50),
         (2, Message.mk 2 5 3 "yo" false 60)],
      currentUserId := 8, currentPetId := 5, currentConversationId := 1,
      currentMessageId := 3 } [1] 3).2.1 2 (by decide)

/-- C7: merging an incoming `new_message` event into the local message cache
is idempotent by message identity — applying the same event twice equals
applying it once, a message whose id is already present leaves the cache
unchanged, an absent message is appended exactly once, and id-uniqueness of
the cache is preserved. -/
theorem handleNewMessage_idempotent (message : Message) :
    (∀ old, handleNewMessage (some (handleNewMessage old message)) message
        = handleNewMessage old message)
    ∧ (∀ l, (∃ m ∈ l, m.id = message.id) →
        handleNewMessage (some l) message = l)
    ∧ (∀ l, (¬ ∃ m ∈ l, m.id = message.id) →
        handleNewMessage (some l) message = l ++ [message])
    ∧ (∀ l, (l.map Message.id).Nodup →
        ((handleNewMessage (some l) message).map Message.id).Nodup) := by
  have hany : ∀ l : List Message,
      l.any (fun msg => msg.id == message.id) = true
        ↔ ∃ m ∈ l, m.id = message.id := by
    intro l
    rw [List.any_eq_true]
    constructor
    · rintro ⟨m, hm, he⟩
      exact ⟨m, hm, beq_iff_eq.mp he⟩
    · rintro ⟨m, hm, he⟩
      exact ⟨m, hm, beq_iff_eq.mpr he⟩
  have hpresent : ∀ l, (∃ m ∈ l, m.id = message.id) →
      handleNewMessage (some l) message = l := by
    intro l h
    rw [handleNewMessage, if_pos ((hany l).mpr h)]
  have habsent : ∀ l, (¬ ∃ m ∈ l, m.id = message.id) →
      handleNewMessage (some l) message = l ++ [message] := by
    intro l h
    rw [handleNewMessage]
    rw [if_neg (fun hc => h ((hany l).mp hc))]
  refine ⟨?_, hpresent, habsent, ?_⟩
  · intro old
    cases old with
    | none =>
      show handleNewMessage (some [message]) message = [message]
      exact hpresent [message] ⟨message, List.mem_singleton_self _, rfl⟩
    | some l =>
      by_cases h : ∃ m ∈ l, m.id = message.id
      · rw [hpresent l h, hpresent l h]
      · rw [habsent l h]
        exact hpresent (l ++ [message])
          ⟨message, List.mem_append_right _ (List.mem_singleton_self _), rfl⟩
  · intro l hnodup
    by_cases h : ∃ m ∈ l, m.id = message.id
    · rw [hpresent l h]
      exact hnodup
    · rw [habsent l h, List.map_append]
      rw [List.nodup_append]
      refine ⟨hnodup, List.nodup_singleton _, ?_⟩
      intro x hx hx'
      have hxid : x = message.id := by simpa using hx'
      obtain ⟨m, hm, hmid⟩ := List.mem_map.mp hx
      exact h ⟨m, hm, hmid.trans hxid⟩

/-- Witness for C7: applying the event for message 3 to a cache already
holding it leaves the cache unchanged, and a second application of the append
case changes nothing. -/
theorem handleNewMessage_idempotent_witness :
    handleNewMessage
        (some (handleNewMessage (some []) (Message.mk 3 7 2 "hello" false 10)))
        (Message.mk 3 7 2 "hello" false 10)
      = handleNewMessage (some []) (Message.mk 3 7 2 "hello" false 10) :=
  (handleNewMessage_idempotent (Message.mk 3 7 2 "hello" false 10)).1 (some [])

/-- C8: the typing-cleanup sweep at time `now` removes exactly the entries
older than the 3-second window, synthesizing a stop-typing notification for
each removed user, and keeps every entry within the window unchanged with no
notification. -/
theorem typingSweep_spec (now : Nat) (m : List (Nat × TypingState))
    (hkeys : (m.map Prod.fst).Nodup) :
    (∀ u ts, (u, ts) ∈ m → 3000 < now - ts.timestamp →
        (∀ v, (u, v) ∉ (typingSweep now m).1) ∧ u ∈ (typingSweep now m).2)
    ∧ (∀ u ts, (u, ts) ∈ m → now - ts.timestamp ≤ 3000 →
        (u, ts) ∈ (typingSweep now m).1 ∧ u ∉ (typingSweep now m).2)
    ∧ (∀ u ts, (u, ts) ∈ (typingSweep now m).1 → (u, ts) ∈ m)
    ∧ (∀ u, u ∈ (typingSweep now m).2 →
        ∃ ts, (u, ts) ∈ m ∧ 3000 < now - ts.timestamp) := by
  have hkept : ∀ u ts, (u, ts) ∈ (typingSweep now m).1
      ↔ (u, ts) ∈ m ∧ now - ts.timestamp ≤ 3000 := by
    intro u ts
    constructor
    · intro h
      have := List.mem_filter.mp h
      exact ⟨this.1, of_decide_eq_true this.2⟩
    · intro ⟨h1, h2⟩
      exact List.mem_filter.mpr ⟨h1, decide_eq_true h2⟩
  have hnotif : ∀ u, u ∈ (typingSweep now m).2
      ↔ ∃ ts, (u, ts) ∈ m ∧ 3000 < now - ts.timestamp := by
    intro u
    constructor
    · intro h
      obtain ⟨p, hp, hpu⟩ := List.mem_map.mp h
      have := List.mem_filter.mp hp
      refine ⟨p.2, ?_, of_decide_eq_true this.2⟩
      rw [← hpu]
      exact (Prod.mk.eta (p := p)) ▸ this.1
    · rintro ⟨ts, h1, h2⟩
      exact List.mem_map.mpr
        ⟨(u, ts), List.mem_filter.mpr ⟨h1, decide_eq_true h2⟩, rfl⟩
  refine ⟨?_, ?_, ?_, fun u => (hnotif u).mp⟩
  · intro u ts hmem hstale
    constructor
    · intro v hv
      obtain ⟨hv1, hv2⟩ := (hkept u v).mp hv
      have : ts = v := keys_nodup_value_eq m hkeys hmem hv1
      rw [← this] at hv2
      exact Nat.lt_irrefl _ (Nat.lt_of_lt_of_le hstale hv2)
    · exact (hnotif u).mpr ⟨ts, hmem, hstale⟩
  · intro u ts hmem hfresh
    refine ⟨(hkept u ts).mpr ⟨hmem, hfresh⟩, ?_⟩
    intro hn
    obtain ⟨ts', hmem', hstale'⟩ := (hnotif u).mp hn
    have : ts = ts' := keys_nodup_value_eq m hkeys hmem hmem'
    rw [← this] at hstale'
    exact Nat.lt_irrefl _ (Nat.lt_of_lt_of_le hstale' hfresh)
  · exact fun u ts h => ((hkept u ts).mp h).1

/-- Witness for C8: at `now = 5000`, the entry stamped 1000 is removed with a
synthesized notification and the entry stamped 4000 is kept silently. -/
theorem typingSweep_spec_witness :
    ((9 : Nat) ∈ (typingSweep 5000
        [(9, TypingState.mk 9 1000), (4, TypingState.mk 4 4000)]).2)
    ∧ (((4 : Nat), TypingState.mk 4 4000) ∈ (typingSweep 5000
        [(9, TypingState.mk 9 1000), (4, TypingState.mk 4 4000)]).1) := by
  have h := typingSweep_spec 5000
    [(9, TypingState.mk 9 1000), (4, TypingState.mk 4 4000)] (by decide)
  exact ⟨(h.1 9 (TypingState.mk 9 1000) (by decide) (by decide)).2,
    (h.2.1 4 (TypingState.mk 4 4000) (by decide) (by decide)).1⟩

/-- C9: the chat-socket hook ignores `typing`/`stop_typing` events whose user
is the local user — the typing map is unchanged and no callback fires — and
consequently the local user's id can never enter the typing map. -/
theorem typing_self_filtered (localUserId : Nat) :
    (∀ m (u now : Nat), u = localUserId →
        handleTypingEvent localUserId m u now = (m, false)
        ∧ handleStopTypingEvent localUserId m u = (m, false))
    ∧ (∀ m (u now : Nat), (∀ ts, (localUserId, ts) ∉ m) →
        (∀ ts, (localUserId, ts) ∉ (handleTypingEvent localUserId m u now).1)
        ∧ (∀ ts, (localUserId, ts) ∉ (handleStopTypingEvent localUserId m u).1)) := by
  constructor
  · intro m u now hu
    subst hu
    constructor
    · rw [handleTypingEvent, if_neg (fun hc => hc rfl)]
    · rw [handleStopTypingEvent, if_neg (fun hc => hc rfl)]
  · intro m u now habsent
    by_cases hu : u = localUserId
    · subst hu
      rw [handleTypingEvent, if_neg (fun hc => hc rfl),
        handleStopTypingEvent, if_neg (fun hc => hc rfl)]
      exact ⟨habsent, habsent⟩
    · constructor
      · rw [handleTypingEvent, if_pos hu]
        exact mapSet_key_absent m u localUserId _ habsent
          (fun he => hu he.symm)
      · rw [handleStopTypingEvent, if_pos hu]
        exact mapDelete_key_absent m u localUserId habsent

/-- Witness for C9: with local user 2, a typing event from user 2 leaves the
map `[(5, …)]` unchanged and fires no callback, and after a typing event from
user 5 the local id 2 is still absent. -/
theorem typing_self_filtered_witness :
    (handleTypingEvent 2 [(5, TypingState.mk 5 100)] 2 200
        = ([(5, TypingState.mk 5 100)], false))
    ∧ (∀ ts, ((2 : Nat), ts)
        ∉ (handleTypingEvent 2 [(5, TypingState.mk 5 100)] 5 200).1) := by
  have h := typing_self_filtered 2
  exact ⟨(h.1 [(5, TypingState.mk 5 100)] 2 200 rfl).1,
    (h.2 [(5, TypingState.mk 5 100)] 5 200 (by intro ts ht; simp at ht)).1⟩

/-- Counterexample to C4 as stated: the `POST /api/messages` handler performs
`createMessage` and `updateConversationLastMessageTime` as two separate store
writes with no transaction.  On a store holding conversation 1 and no
messages, when the `lastMessageAt` update rejects after `createMessage`
succeeded, the request is answered 500 with no broadcast — but the created
message remains persisted, so the store is NOT left as it was before the
request. -/
theorem send_message_not_atomic :
    ((postMessagesHandler
        { users := [], pets := [],
          conversations := [((1 : Nat), Conversation.mk 1 1 2 3 "t" 0)],
          messages := [], currentUserId := 4, currentPetId := 1,
          currentConversationId := 2, currentMessageId := 1 }
        (StoreFaults.mk false true) 100 2 (InsertMessage.mk 1 "hello")
        ([] : List (Nat × ConnInfo)) (fun _ => true)
        : PostMessagesResult Unit Unit Nat).response
      = MessageResponse.serverError)
    ∧ ((postMessagesHandler
        { users := [], pets := [],
          conversations := [((1 : Nat), Conversation.mk 1 1 2 3 "t" 0)],
          messages := [], currentUserId := 4, currentPetId := 1,
          currentConversationId := 2, currentMessageId := 1 }
        (StoreFaults.mk false true) 100 2 (InsertMessage.mk 1 "hello")
        ([] : List (Nat × ConnInfo)) (fun _ => true)
        : PostMessagesResult Unit Unit Nat).broadcasts = [])
    ∧ ((postMessagesHandler
        { users := [], pets := [],
          conversations := [((1 : Nat), Conversation.mk 1 1 2 3 "t" 0)],
          messages := [], currentUserId := 4, currentPetId := 1,
          currentConversationId := 2, currentMessageId := 1 }
        (StoreFaults.mk false true) 100 2 (InsertMessage.mk 1 "hello")
        ([] : List (Nat × ConnInfo)) (fun _ => true)
        : PostMessagesResult Unit Unit Nat).store.messages
      = [((1 : Nat), Message.mk 1 1 2 "hello" false 100)]) := by
  exact ⟨rfl, rfl, rfl⟩

/-- C4 amended: if any store write of the send-message operation fails, the
request is surfaced as a failure and no `new_message` broadcast is published;
if the `createMessage` write itself fails the store is left exactly as
before; but if the `lastMessageAt` update fails after `createMessage`
succeeded, the created message remains persisted (the operation is not
all-or-nothing). -/
theorem send_message_failure_semantics {U P C : Type} [DecidableEq C]
    (s : MemStorage U P) (faults : StoreFaults) (now currentUserId : Nat)
    (body : InsertMessage) (connections : List (C × ConnInfo))
    (isOpen : C → Bool) :
    (faults.createMessageFails = true →
      (postMessagesHandler s faults now currentUserId body connections
          isOpen).store = s
      ∧ (postMessagesHandler s faults now currentUserId body connections
          isOpen).broadcasts = []
      ∧ ∀ m, (postMessagesHandler s faults now currentUserId body connections
          isOpen).response ≠ MessageResponse.created m)
    ∧ ((faults.createMessageFails = true
          ∨ faults.updateLastMessageTimeFails = true) →
      (postMessagesHandler s faults now currentUserId body connections
          isOpen).broadcasts = []
      ∧ ∀ m, (postMessagesHandler s faults now currentUserId body connections
          isOpen).response ≠ MessageResponse.created m)
    ∧ (∀ conversation, s.getConversation body.conversationId = some conversation →
        (currentUserId = conversation.adopterId
          ∨ currentUserId = conversation.ownerId) →
        faults.createMessageFails = false →
        faults.updateLastMessageTimeFails = true →
        (postMessagesHandler s faults now currentUserId body connections
            isOpen).response = MessageResponse.serverError
        ∧ (postMessagesHandler s faults now currentUserId body connections
            isOpen).broadcasts = []
        ∧ mapGet (postMessagesHandler s faults now currentUserId body
            connections isOpen).store.messages s.currentMessageId
          = some (Message.mk s.currentMessageId body.conversationId
              currentUserId body.content false now)) := by
  refine ⟨?_, ?_, ?_⟩
  · intro hcf
    cases hconv : s.getConversation body.conversationId with
    | none => simp [postMessagesHandler, hconv]
    | some conversation =>
      by_cases hguard : currentUserId ≠ conversation.adopterId
          ∧ currentUserId ≠ conversation.ownerId
      · simp [postMessagesHandler, hconv, hguard]
      · simp [postMessagesHandler, hconv, hguard, hcf]
  · intro hfault
    cases hconv : s.getConversation body.conversationId with
    | none => simp [postMessagesHandler, hconv]
    | some conversation =>
      by_cases hguard : currentUserId ≠ conversation.adopterId
          ∧ currentUserId ≠ conversation.ownerId
      · simp [postMessagesHandler, hconv, hguard]
      · cases hcf : faults.createMessageFails with
        | true => simp [postMessagesHandler, hconv, hguard, hcf]
        | false =>
          have hup : faults.updateLastMessageTimeFails = true := by
            rcases hfault with h | h
            · rw [hcf] at h
              cases h
            · exact h
          simp [postMessagesHandler, hconv, hguard, hcf, hup]
  · intro conversation hconv hpart hcf hup
    have hguard : ¬ (currentUserId ≠ conversation.adopterId
        ∧ currentUserId ≠ conversation.ownerId) := by
      rcases hpart with h | h
      · exact fun hc => hc.1 h
      · exact fun hc => hc.2 h
    have hrun : postMessagesHandler s faults now currentUserId body
        connections isOpen
        = ⟨MessageResponse.serverError,
            (s.createMessage now body currentUserId).2, []⟩ := by
      simp [postMessagesHandler, hconv, hguard, hcf, hup]
    rw [hrun]
    refine ⟨rfl, rfl, ?_⟩
    show mapGet ((s.createMessage now body currentUserId).2).messages
        s.currentMessageId = _
    rw [show ((s.createMessage now body currentUserId).2).messages
        = mapSet s.messages s.currentMessageId
            (Message.mk s.currentMessageId body.conversationId currentUserId
              body.content false now) from rfl]
    exact mapGet_mapSet_self _ _ _

/-- Witness for the amended C4: at the concrete store of the counterexample,
the failed `lastMessageAt` update yields a 500, no broadcast, and the
persisted message remains. -/
theorem send_message_failure_semantics_witness :
    ((postMessagesHandler
        { users := [], pets := [],
          conversations := [((1 : Nat), Conversation.mk 1 1 2 3 "t" 0)],
          messages := [], currentUserId := 4, currentPetId := 1,
          currentConversationId := 2, currentMessageId := 1 }
        (StoreFaults.mk false true) 100 2 (InsertMessage.mk 1 "hello")
        ([] : List (Nat × ConnInfo)) (fun _ => true)
        : PostMessagesResult Unit Unit Nat).response
      = MessageResponse.serverError)
    ∧ (mapGet (postMessagesHandler
        { users := [], pets := [],
          conversations := [((1 : Nat), Conversation.mk 1 1 2 3 "t" 0)],
          messages := [], currentUserId := 4, currentPetId := 1,
          currentConversationId := 2, currentMessageId := 1 }
        (StoreFaults.mk false true) 100 2 (InsertMessage.mk 1 "hello")
        ([] : List (Nat × ConnInfo)) (fun _ => true)
        : PostMessagesResult Unit Unit Nat).store.messages 1
      = some (Message.mk 1 1 2 "hello" false 100)) := by
  have h0 := send_message_failure_semantics
    ({ users := [], pets := [],
       conversations := [((1 : Nat), Conversation.mk 1 1 2 3 "t" 0)],
       messages := [], currentUserId := 4, currentPetId := 1,
       currentConversationId := 2,
       currentMessageId := 1 } : MemStorage Unit Unit)
    (StoreFaults.mk false true) 100 2 (InsertMessage.mk 1 "hello")
    ([] : List (Nat × ConnInfo)) (fun _ => true)
  have h := h0.2.2 (Conversation.mk 1 1 2 3 "t" 0) rfl (Or.inl rfl) rfl rfl
  exact ⟨h.1, h.2.2⟩

/-- Counterexample to C6 as stated: `createdAt` is `new Date()` at
millisecond resolution, so two messages of one conversation can carry the
same timestamp, and then the fetched list is not *strictly* ascending.  Two
`createMessage` calls in the same millisecond (`now = 100`) yield a fetch
result whose two entries have equal `createdAt`. -/
theorem message_order_not_strict :
    (MemStorage.getConversationMessages
        ((MemStorage.createMessage
          ((MemStorage.createMessage
            ({ users := [], pets := [],
               conversations := [((1 : Nat), Conversation.mk 1 1 2 3 "t" 0)],
               messages := [], currentUserId := 4, currentPetId := 1,
               currentConversationId := 2, currentMessageId := 1 } :
              MemStorage Unit Unit) 100 (InsertMessage.mk 1 "a") 2).2)
          100 (InsertMessage.mk 1 "b") 3).2) 1
      = [Message.mk 1 1 2 "a" false 100, Message.mk 2 1 3 "b" false 100])
    ∧ ¬ (MemStorage.getConversationMessages
        ((MemStorage.createMessage
          ((MemStorage.createMessage
            ({ users := [], pets := [],
               conversations := [((1 : Nat), Conversation.mk 1 1 2 3 "t" 0)],
               messages := [], currentUserId := 4, currentPetId := 1,
               currentConversationId := 2, currentMessageId := 1 } :
              MemStorage Unit Unit) 100 (InsertMessage.mk 1 "a") 2).2)
          100 (InsertMessage.mk 1 "b") 3).2) 1).Pairwise
        (fun a b => a.createdAt < b.createdAt) := by
  constructor
  · rfl
  · decide

/-- C6 amended: `getConversationMessages` returns exactly the messages of the
conversation, ordered by `createdAt` non-decreasing; the order is strictly
ascending whenever the conversation's messages carry pairwise-distinct
`createdAt` values (which the server's millisecond clock does not itself
guarantee). -/
theorem getConversationMessages_ordered {U P : Type} (s : MemStorage U P)
    (conversationId : Nat) :
    (∀ m, m ∈ s.getConversationMessages conversationId ↔
        m ∈ s.messages.map Prod.snd ∧ m.conversationId = conversationId)
    ∧ (s.getConversationMessages conversationId).Pairwise
        (fun a b => a.createdAt ≤ b.createdAt)
    ∧ ((((s.messages.map Prod.snd).filter
          (fun m => m.conversationId == conversationId)).map
            Message.createdAt).Nodup →
        (s.getConversationMessages conversationId).Pairwise
          (fun a b => a.createdAt < b.createdAt)) := by
  haveI htot : IsTotal Message (fun a b => a.createdAt ≤ b.createdAt) :=
    ⟨fun a b => Nat.le_total _ _⟩
  haveI htr : IsTrans Message (fun a b => a.createdAt ≤ b.createdAt) :=
    ⟨fun a b c hab hbc => Nat.le_trans hab hbc⟩
  have hperm : List.Perm (s.getConversationMessages conversationId)
      ((s.messages.map Prod.snd).filter
        (fun m => m.conversationId == conversationId)) :=
    List.perm_insertionSort _ _
  have hsorted : (s.getConversationMessages conversationId).Pairwise
      (fun a b => a.createdAt ≤ b.createdAt) :=
    List.sorted_insertionSort _ _
  refine ⟨?_, hsorted, ?_⟩
  · intro m
    rw [hperm.mem_iff, List.mem_filter, beq_iff_eq]
  · intro hnodup
    have hnodup' : ((s.getConversationMessages conversationId).map
        Message.createdAt).Nodup :=
      ((hperm.map Message.createdAt).nodup_iff).mpr hnodup
    have hne : (s.getConversationMessages conversationId).Pairwise
        (fun a b => a.createdAt ≠ b.createdAt) :=
      List.pairwise_map.mp hnodup'
    exact (hsorted.and hne).imp (fun hab => Nat.lt_of_le_of_ne hab.1 hab.2)

/-- Witness for the amended C6: with two messages of distinct `createdAt`
(100 and 200) the fetch is strictly ascending. -/
theorem getConversationMessages_ordered_witness :
    (MemStorage.getConversationMessages
        ({ users := [], pets := [],
           conversations := [((1 : Nat), Conversation.mk 1 1 2 3 "t" 0)],
           messages := [((1 : Nat), Message.mk 1 1 2 "a" false 100),
             (2, Message.mk 2 1 3 "b" false 200)],
           currentUserId := 4, currentPetId := 1,
           currentConversationId := 2, currentMessageId := 3 } :
          MemStorage Unit Unit) 1).Pairwise
      (fun a b => a.createdAt < b.createdAt) :=
  (getConversationMessages_ordered
    ({ users := [], pets := [],
       conversations := [((1 : Nat), Conversation.mk 1 1 2 3 "t" 0)],
       messages := [((1 : Nat), Message.mk 1 1 2 "a" false 100),
         (2, Message.mk 2 1 3 "b" false 200)],
       currentUserId := 4, currentPetId := 1,
       currentConversationId := 2, currentMessageId := 3 } :
      MemStorage Unit Unit) 1).2.2 (by decide)

end PetAdoption
